import Mathlib

/-!
Shallow embedding of `master/buildbot/www/hooks/github.py`: the GitHub
webhook event handler (signature verification, payload decoding, event
dispatch, and the push / pull-request change normalizers), together with
theorems checking the natural-language specification against it.

External collaborators (the Python `re.search` regex primitive, the
`dateutil` timestamp parser, the JSON decoder, the `extractProperties`
whitelist helper from `PullRequestMixin`, and the remote GitHub API
service's returned data) are taken as parameters of the embedded
functions; everything else is translated directly from the source.
-/

namespace GitHubHook

/-! ## Byte-level SHA-1 and HMAC-SHA1 (the code calls `hmac.new(..., digestmod=sha1)`) -/

/-- Left rotation by `n` on a 32-bit word represented as a `Nat` below `2 ^ 32`. -/
def rotl32 (n x : Nat) : Nat := ((x <<< n) ||| (x >>> (32 - n))) % (2 ^ 32)

/-- SHA-1 padding: append `0x80`, zeros to 56 mod 64, then the 8-byte
big-endian bit length. -/
def sha1Pad (msg : List Nat) : List Nat :=
  let len := msg.length
  let zeros := (119 - len % 64) % 64
  msg ++ [0x80] ++ List.replicate zeros 0 ++
    (List.range 8).map (fun i => ((len * 8) >>> ((7 - i) * 8)) &&& 255)

/-- Split a byte list into 64-byte chunks. -/
def chunks64 (l : List Nat) : List (List Nat) :=
  if h : l = [] then [] else l.take 64 :: chunks64 (l.drop 64)
termination_by l.length
decreasing_by
  simp only [List.length_drop]
  have := List.length_pos.mpr h
  omega

/-- Big-endian 32-bit word from up to four bytes. -/
def be32 (b : List Nat) : Nat := b.foldl (fun a x => a * 256 + x) 0

/-- The sixteen initial message-schedule words of one 64-byte chunk. -/
def chunkWords (c : List Nat) : Array Nat :=
  ((List.range 16).map (fun i => be32 ((c.drop (4 * i)).take 4))).toArray

/-- Extend the schedule from 16 to 80 words. -/
def sha1Extend (w : Array Nat) : Array Nat :=
  (List.range 64).foldl
    (fun w j =>
      w.push (rotl32 1 ((w.getD (j + 13) 0) ^^^ (w.getD (j + 8) 0) ^^^
        (w.getD (j + 2) 0) ^^^ (w.getD j 0))))
    w

/-- Per-round boolean function. -/
def sha1F (i b c d : Nat) : Nat :=
  if i < 20 then (b &&& c) ||| ((b ^^^ 0xFFFFFFFF) &&& d)
  else if i < 40 then b ^^^ c ^^^ d
  else if i < 60 then (b &&& c) ||| (b &&& d) ||| (c &&& d)
  else b ^^^ c ^^^ d

/-- Per-round constant. -/
def sha1K (i : Nat) : Nat :=
  if i < 20 then 0x5A827999
  else if i < 40 then 0x6ED9EBA1
  else if i < 60 then 0x8F1BBCDC
  else 0xCA62C1D6

/-- The five-word SHA-1 working state. -/
structure Sha1State where
  a : Nat
  b : Nat
  c : Nat
  d : Nat
  e : Nat
deriving Repr, DecidableEq

/-- One SHA-1 round. -/
def sha1Round (w : Array Nat) (s : Sha1State) (i : Nat) : Sha1State :=
  let t := (rotl32 5 s.a + sha1F i s.b s.c s.d + s.e + sha1K i + w.getD i 0) % (2 ^ 32)
  ⟨t, s.a, rotl32 30 s.b, s.c, s.d⟩

/-- Compress one 64-byte chunk into the running state. -/
def sha1Chunk (h : Sha1State) (c : List Nat) : Sha1State :=
  let w := sha1Extend (chunkWords c)
  let s := (List.range 80).foldl (sha1Round w) h
  ⟨(h.a + s.a) % (2 ^ 32), (h.b + s.b) % (2 ^ 32), (h.c + s.c) % (2 ^ 32),
    (h.d + s.d) % (2 ^ 32), (h.e + s.e) % (2 ^ 32)⟩

/-- SHA-1 of a byte list, as a 20-byte list. -/
def sha1Bytes (msg : List Nat) : List Nat :=
  let init : Sha1State := ⟨0x67452301, 0xEFCDAB89, 0x98BADCFE, 0x10325476, 0xC3D2E1F0⟩
  let s := (chunks64 (sha1Pad msg)).foldl sha1Chunk init
  [s.a, s.b, s.c, s.d, s.e].flatMap
    (fun x => (List.range 4).map (fun i => (x >>> ((3 - i) * 8)) &&& 255))

/-- HMAC-SHA1 with the standard 64-byte block size. -/
def hmacSha1 (key msg : List Nat) : List Nat :=
  let key := if key.length > 64 then sha1Bytes key else key
  let key := key ++ List.replicate (64 - key.length) 0
  let ipadded := key.map (fun b => b ^^^ 0x36)
  let opadded := key.map (fun b => b ^^^ 0x5C)
  sha1Bytes (opadded ++ sha1Bytes (ipadded ++ msg))

/-- A lowercase hex digit, as Python's `hexdigest` produces. -/
def hexChar (n : Nat) : Char := if n < 10 then Char.ofNat (48 + n) else Char.ofNat (87 + n)

/-- Lowercase hex rendering of a byte list. -/
def bytesToHex (l : List Nat) : String :=
  String.mk (l.flatMap (fun b => [hexChar (b / 16), hexChar (b % 16)]))

/-- UTF-8 bytes of a string (`unicode2bytes`). -/
def strBytes (s : String) : List Nat := s.toUTF8.toList.map (fun b => b.toNat)

/-- Model of `hmac.new(unicode2bytes(secret), msg=unicode2bytes(content), digestmod=sha1).hexdigest()`. -/
def hmacSha1Hex (key msg : String) : String := bytesToHex (hmacSha1 (strBytes key) (strBytes msg))

/-! ## Python-semantics helpers -/

/-- Truthiness of an optional string: `None` and `''` are falsy. -/
def pyTruthy : Option String → Bool
  | none => false
  | some s => !s.isEmpty

/-- Python's `str.split('=')`: split on every occurrence of `=`. -/
def pySplitEq (s : String) : List String := s.split (fun c => c == '=')

/-- Python `'{}'.format(x)` for an optional string: `None` renders as `"None"`. -/
def pyFormatOpt : Option String → String
  | none => "None"
  | some s => s

/-! ## Errors raised by the handler (all `ValueError`/`KeyError` in the source) -/

/-- Failures the handler can raise: `ValueError` with its message, a missing
dict key (`KeyError`), a JSON decode failure, or a `dateutil` parse failure. -/
inductive Err
  | valueError (msg : String)
  | keyError (key : String)
  | decodeError
  | parseError (s : String)
deriving Repr, DecidableEq

/-- Hard dict/key access: `d[key]` raises `KeyError` when the key is missing. -/
def getK {α : Type} (key : String) : Option α → Except Err α
  | none => .error (.keyError key)
  | some a => .ok a

/-! ## Property dictionaries -/

/-- A JSON-ish scalar/collection value stored in a change's properties. -/
inductive PropValue
  | str (s : String)
  | bool (b : Bool)
  | strList (l : List String)
deriving Repr, DecidableEq

/-- A Python dict of properties, as an association list keyed by `List.lookup`. -/
abbrev Props := List (String × PropValue)

/-- Python `dict.update`: entries of `upd` overwrite same-keyed entries of `base`. -/
def dictUpdate (base upd : Props) : Props :=
  base.filter (fun p => (upd.lookup p.1).isNone) ++ upd

/-! ## Payload data model: the JSON fields the handler accesses.
`none` on a field models the key being absent from the JSON object. -/

/-- The `commit['author']` sub-object. -/
structure CommitAuthor where
  name : Option String
  email : Option String
deriving Repr, DecidableEq

/-- One commit object of a push payload. -/
structure Commit where
  id : Option String
  message : Option String
  timestamp : Option String
  author : Option CommitAuthor
  url : Option String
  distinct : Option Bool
  added : Option (List String)
  modified : Option (List String)
  removed : Option (List String)
deriving Repr, DecidableEq

/-- The `payload['repository']` sub-object. -/
structure Repository where
  name : Option String
  html_url : Option String
  full_name : Option String
deriving Repr, DecidableEq

/-- The `pull_request['head']` sub-object. -/
structure PRHead where
  sha : Option String
deriving Repr, DecidableEq

/-- The `pull_request['user']` and `base['user']` sub-objects. -/
structure PRUser where
  login : Option String
deriving Repr, DecidableEq

/-- The `base['repo']` sub-object. -/
structure PRBaseRepo where
  name : Option String
  full_name : Option String
deriving Repr, DecidableEq

/-- The `pull_request['base']` sub-object. -/
structure PRBase where
  user : Option PRUser
  repo : Option PRBaseRepo
deriving Repr, DecidableEq

/-- The `pull_request['_links']` sub-object: only `['html']['href']` is accessed. -/
structure PRLinks where
  html_href : Option String
deriving Repr, DecidableEq

/-- The `payload['pull_request']` sub-object. -/
structure PullRequestObj where
  commits : Option Nat
  title : Option String
  body : Option String
  head : Option PRHead
  user : Option PRUser
  base : Option PRBase
  created_at : Option String
  links : Option PRLinks
deriving Repr, DecidableEq

/-- The decoded webhook payload: the union of the fields the push and
pull-request handlers access. -/
structure Payload where
  ref : Option String
  deleted : Option Bool
  created : Option Bool
  head_commit : Option Commit
  commits : Option (List Commit)
  repository : Option Repository
  number : Option Nat
  action : Option String
  pull_request : Option PullRequestObj
deriving Repr, DecidableEq

/-- The configured codebase: absent, a constant string, or a callable over
the payload (`callable(self._codebase)`). -/
inductive CodebaseCfg
  | cbNone
  | cbConst (s : String)
  | cbFun (f : Payload → String)

/-! ## Handler configuration and construction -/

/-- Default skip patterns `DEFAULT_SKIPS_PATTERN` (regex source strings). -/
def DEFAULT_SKIPS_PATTERN : List String := ["\\[ *skip *ci *\\]", "\\[ *ci *skip *\\]"]

/-- The `DEFAULT_GITHUB_API_URL` constant. -/
def DEFAULT_GITHUB_API_URL : String := "https://api.github.com"

/-- The state of a constructed `GitHubEventHandler` (fields set by `__init__`). -/
structure GitHubEventHandler where
  secret : Option String
  strict : Bool
  token : Option String
  codebase : CodebaseCfg
  github_property_whitelist : List String
  skips : List String
  github_api_endpoint : Option String
  debug : Bool
  verify : Bool
  integration_id : Option String
  private_key : Option String
  installation_id : Option String

/-- The arguments of `GitHubEventHandler.__init__` (keyword defaults made explicit). -/
structure HandlerArgs where
  secret : Option String
  strict : Bool
  codebase : CodebaseCfg
  github_property_whitelist : Option (List String)
  skips : Option (List String)
  github_api_endpoint : Option String
  token : Option String
  debug : Bool
  verify : Bool
  integration_id : Option String
  private_key : Option String
  installation_id : Option String

/-- Constructor `GitHubEventHandler.__init__`: applies the `None` defaults for the
whitelist, the skips and the API endpoint, raises `ValueError` when strict
mode is requested without a secret, and then (line 76 of the source)
re-assigns `self.github_api_endpoint` from the original argument,
overwriting the default just substituted. -/
def GitHubEventHandler.init (a : HandlerArgs) : Except Err GitHubEventHandler :=
  let wl := a.github_property_whitelist.getD []
  let sk := a.skips.getD DEFAULT_SKIPS_PATTERN
  let ep := some (a.github_api_endpoint.getD DEFAULT_GITHUB_API_URL)
  if a.strict && !pyTruthy a.secret then
    .error (.valueError "Strict mode is requested while no secret is provided")
  else
    let h0 : GitHubEventHandler :=
      { secret := a.secret, strict := a.strict, token := a.token, codebase := a.codebase,
        github_property_whitelist := wl, skips := sk, github_api_endpoint := ep,
        debug := a.debug, verify := a.verify, integration_id := a.integration_id,
        private_key := a.private_key, installation_id := a.installation_id }
    .ok { h0 with github_api_endpoint := a.github_api_endpoint }

/-! ## The inbound request and signature verification -/

/-- An inbound webhook request: the raw body (as a unicode string, after
`bytes2unicode`), the headers, and the `payload` form field of
`request.args` when the body was form-encoded. -/
structure Request where
  content : String
  headers : List (String × String)
  args_payload : Option String
deriving Repr, DecidableEq

/-- Model of `request.getHeader`: `None` when the header is absent. -/
def Request.getHeader (req : Request) (k : String) : Option String :=
  req.headers.lookup k

/-- Header name `_HEADER_EVENT`. -/
def HEADER_EVENT : String := "X-GitHub-Event"

/-- Header name `_HEADER_SIGNATURE`. -/
def HEADER_SIGNATURE : String := "X-Hub-Signature"

/-- The signature-verification prefix of `_get_payload` (source lines
104-126): raise if strict and no signature; when both a secret and a
signature are present, split the header on `=`, require the `sha1`
algorithm, and compare the HMAC-SHA1 hex digest of the raw body. -/
def verifySignature (h : GitHubEventHandler) (req : Request) : Except Err Unit :=
  let signature := req.getHeader HEADER_SIGNATURE
  if !pyTruthy signature && h.strict then
    .error (.valueError "Request has no required signature")
  else if pyTruthy h.secret && pyTruthy signature then
    match pySplitEq (signature.getD "") with
    | [hash_type, hexdigest] =>
      if hash_type != "sha1" then
        .error (.valueError ("Unknown hash type: " ++ hash_type))
      else if hmacSha1Hex (h.secret.getD "") req.content != hexdigest then
        .error (.valueError "Hash mismatch")
      else .ok ()
    | _ => .error (.valueError ("Wrong signature format: " ++ signature.getD ""))
  else .ok ()

section Embedding

variable (regexSearch : String → String → Bool)
variable (dparse : String → Option Nat)
variable (jsonLoads : String → Option Payload)
variable (extractPropsPush : Payload → Props)
variable (extractPropsPR : PullRequestObj → Props)

/-- The content-type dispatch suffix of `_get_payload` (source lines
128-137), with the JSON decoder `jsonLoads` as an external parameter. -/
def decodePayload (req : Request) : Except Err Payload :=
  match req.getHeader "Content-Type" with
  | some "application/json" =>
    match jsonLoads req.content with
    | some p => .ok p
    | none => .error .decodeError
  | some "application/x-www-form-urlencoded" =>
    match req.args_payload with
    | none => .error (.keyError "payload")
    | some s =>
      match jsonLoads s with
      | some p => .ok p
      | none => .error .decodeError
  | ct => .error (.valueError ("Unknown content type: " ++ pyFormatOpt ct))

/-- Embedding of `GitHubEventHandler._get_payload`: verification, then decoding. -/
def get_payload (h : GitHubEventHandler) (req : Request) : Except Err Payload := do
  verifySignature h req
  decodePayload jsonLoads req

/-- Embedding of `GitHubEventHandler._has_skip`: some configured pattern matches the message. -/
def has_skip (h : GitHubEventHandler) (msg : String) : Bool :=
  h.skips.any (fun skip => regexSearch skip msg)

/-- The effective search region for `$` in an anchored `re.match`: `$`
also matches just before one trailing newline, so strip at most one. -/
def refCore (refname : String) : List Char :=
  let cs := refname.toList
  if cs.getLast? = some '\n' then cs.dropLast else cs

/-- The `(.+)$` part of the ref regex: at least one character, none of
them a newline. -/
def refGroup (kind : String) (b : List Char) : Option (String × String) :=
  if b.isEmpty || b.contains '\n' then none else some (kind, String.mk b)

/-- The anchored regex `^refs/(heads|tags)/(.+)$` under `re.match`
(`.` excludes newlines). Returns `(group 1, group 2)` on a match. -/
def matchRefHeadsTags (refname : String) : Option (String × String) :=
  if ("refs/heads/".toList).isPrefixOf (refCore refname) then
    refGroup "heads" ((refCore refname).drop 11)
  else if ("refs/tags/".toList).isPrefixOf (refCore refname) then
    refGroup "tags" ((refCore refname).drop 10)
  else none

/-- The codebase attached to a change: `callable(self._codebase)` first,
then the non-`None` constant case. -/
def resolveCodebase (h : GitHubEventHandler) (payload : Payload) : Option String :=
  match h.codebase with
  | .cbFun f => some (f payload)
  | .cbConst s => some s
  | .cbNone => none

/-- Sequential fallible mapping, as the source's `for commit in commits`
loop appends one change per commit and lets any exception propagate. -/
def mapMExcept {α β : Type} (f : α → Except Err β) : List α → Except Err (List β)
  | [] => Except.ok []
  | a :: l => do
    let b ← f a
    let bs ← mapMExcept f l
    Except.ok (b :: bs)

/-- A canonical change record; `files = none` models the `files` key being
absent from the dict, and likewise `codebase`/`category`. -/
structure Change where
  author : String
  files : Option (List String)
  comments : String
  revision : String
  when_timestamp : Nat
  branch : String
  revlink : String
  repository : String
  project : String
  properties : Props
  category : Option String
  codebase : Option String
deriving Repr, DecidableEq

/-- The per-commit body of the loop in `_process_change`: files are
added ++ modified ++ removed, the timestamp is parsed with `dateparse`
(parameter `dparse`), the author is `"name <email>"`, and the properties
are the per-commit dict `{github_distinct, event}` updated with the
caller-supplied whitelist properties. -/
def processCommit (h : GitHubEventHandler) (payload : Payload)
    (repo_url project event : String) (properties : Props) (category : Option String)
    (branch : String) (commit : Commit) : Except Err Change := do
  let files := (commit.added.getD []) ++ (commit.modified.getD []) ++ (commit.removed.getD [])
  let ts ← getK "timestamp" commit.timestamp
  let when_timestamp ← match dparse ts with
    | some t => pure t
    | none => Except.error (.parseError ts)
  let cauthor ← getK "author" commit.author
  let name ← getK "name" cauthor.name
  let email ← getK "email" cauthor.email
  let id ← getK "id" commit.id
  let msg ← getK "message" commit.message
  let url ← getK "url" commit.url
  let commitProps : Props :=
    [("github_distinct", .bool (commit.distinct.getD true)), ("event", .str event)]
  Except.ok
    { author := name ++ " <" ++ email ++ ">", files := some files, comments := msg,
      revision := id, when_timestamp := when_timestamp, branch := branch, revlink := url,
      repository := repo_url, project := project,
      properties := dictUpdate commitProps properties, category := category,
      codebase := resolveCodebase h payload }

/-- Embedding of `GitHubEventHandler._process_change`. -/
def process_change (h : GitHubEventHandler) (payload : Payload)
    (repo_url project event : String) (properties : Props) : Except Err (List Change) := do
  let refname ← getK "ref" payload.ref
  match matchRefHeadsTags refname with
  | none => Except.ok []
  | some (g1, branch) =>
    let category := if g1 == "tags" then some "tag" else none
    if payload.deleted.getD false then Except.ok []
    else do
      let head_commit ← getK "head_commit" payload.head_commit
      let head_msg := head_commit.message.getD ""
      if has_skip regexSearch h head_msg then Except.ok []
      else do
        let commits0 ← getK "commits" payload.commits
        let commits := if payload.created.getD false then [head_commit] else commits0
        mapMExcept
          (processCommit dparse h payload repo_url project event properties category branch)
          commits

/-- Embedding of `GitHubEventHandler.handle_push`. -/
def handle_push (h : GitHubEventHandler) (payload : Payload) (event : String) :
    Except Err (List Change × String) := do
  let repository ← getK "repository" payload.repository
  let _repo ← getK "name" repository.name
  let repo_url ← getK "html_url" repository.html_url
  let project ← getK "full_name" repository.full_name
  let properties := extractPropsPush payload
  let changes ← process_change regexSearch dparse h payload repo_url project event properties
  Except.ok (changes, "git")

/-- Embedding of `GitHubEventHandler.handle_ping`. -/
def handle_ping (_payload : Payload) (_event : String) : Except Err (List Change × String) :=
  Except.ok ([], "git")

end Embedding

/-! ## Pull-request normalization and the enrichment client -/

/-- One entry of the per-sha commit-detail mapping returned by the API
service's `get_pull_request_changes`. -/
structure CommitDetails where
  message : String
  author : Option String
  login : Option String
  title : String
  body : Option String
deriving Repr, DecidableEq

/-- The data the remote API service returns for this pull request: the
changed-files list and the per-sha detail mapping (in the dict's insertion
order). The service itself is an external collaborator; only its returned
data enters the embedding. -/
structure ApiService where
  changed_files : List String
  pr_changes : List (String × CommitDetails)
deriving Repr, DecidableEq

/-- A remote API call made during pull-request normalization, recorded in
order so that "the changed-files call was already made" is observable. -/
inductive ApiCall
  | getChangedFiles
  | getPullRequestChanges
deriving Repr, DecidableEq

/-- The memoized `get_github_api_service` returns a service (rather than `None`) exactly
when a token, or the full integration-id/private-key/installation-id
triple, is configured. -/
def hasApiService (h : GitHubEventHandler) : Bool :=
  pyTruthy h.token ||
    (pyTruthy h.integration_id && pyTruthy h.private_key && pyTruthy h.installation_id)

/-- Python `set.add` on a set modelled as a duplicate-free list. -/
def setAdd (l : List String) (x : String) : List String :=
  if x ∈ l then l else l ++ [x]

/-- The outcome of the `for sha in pr_change_details` loop: either the
early `return ([], 'git')` on a skipping head commit, or the accumulated
individual-commit comment lines, owners set, and asserted change author. -/
inductive PRLoopResult
  | aborted
  | done (cs : List String) (ow : List String) (ca : Option String)
deriving Repr, DecidableEq

/-- The `for sha in pr_change_details` loop of `handle_pull_request`:
abort on a head-sha entry whose message matches a skip pattern; otherwise
collect truthy authors into the owners set, adopt the author of any entry
whose truthy login equals the PR user's login, and append the formatted
title line plus 46-space-indented non-empty body lines. -/
def prDetailsLoop (regexSearch : String → String → Bool) (h : GitHubEventHandler)
    (head_sha user_login : String) :
    List (String × CommitDetails) → List String → List String → Option String → PRLoopResult
  | [], cs, ow, ca => .done cs ow ca
  | (sha, details) :: rest, cs, ow, ca =>
    if sha == head_sha && has_skip regexSearch h details.message then .aborted
    else
      let ow := if pyTruthy details.author then setAdd ow (details.author.getD "") else ow
      let ca := if pyTruthy details.login && details.login == some user_login then
          details.author
        else ca
      let bodyLines :=
        if pyTruthy details.body then
          (((details.body.getD "").splitOn "\n").filter (fun l => !l.isEmpty)).map
            (fun l => String.mk (List.replicate 46 ' ') ++ l)
        else []
      let cs := cs ++ ("  * " ++ sha ++ ": " ++ details.title.trim) :: bodyLines
      prDetailsLoop regexSearch h head_sha user_login rest cs ow ca

/-- The shared tail of `handle_pull_request` after the enrichment block
(source lines 211-250): append the individual-commit section when any
lines were collected (a no-op for the empty list the unenriched path
passes), fall back to the PR user's login when no commit author was
adopted, attach the owners property when the owners set is non-empty, and
build the single change record. -/
def prFinish (dparse : String → Option Nat) (h : GitHubEventHandler) (payload : Payload)
    (pr : PullRequestObj) (baseRepo : PRBaseRepo) (head_sha refname user_login : String)
    (comments0 : List String) (properties : Props) (files : Option (List String))
    (cs ow : List String) (ca : Option String) (trace : List ApiCall) :
    Except Err ((List Change × String) × List ApiCall) := do
  let comments :=
    if !cs.isEmpty then comments0 ++ "Individual Commit Messages:\n" :: cs else comments0
  let change_author := ca.getD user_login
  let properties :=
    if !ow.isEmpty then dictUpdate properties [("owners", .strList ow)] else properties
  let created_at ← getK "created_at" pr.created_at
  let ts ← match dparse created_at with
    | some t => pure t
    | none => Except.error (.parseError created_at)
  let links ← getK "_links" pr.links
  let href ← getK "href" links.html_href
  let repository ← getK "repository" payload.repository
  let repo_html ← getK "html_url" repository.html_url
  let project ← getK "full_name" baseRepo.full_name
  Except.ok
    (([{ revision := head_sha, when_timestamp := ts, branch := refname, revlink := href,
         repository := repo_html, project := project, category := some "pull",
         author := change_author, comments := String.intercalate "\n" comments,
         properties := properties, files := files,
         codebase := resolveCodebase h payload }], "git"), trace)

section PREmbedding

variable (regexSearch : String → String → Bool)
variable (dparse : String → Option Nat)
variable (extractPropsPR : PullRequestObj → Props)

/-- Embedding of `GitHubEventHandler.handle_pull_request`, instrumented with the list of
remote API calls it performed (in order). The un-instrumented function is
`handle_pull_request`, its first projection. -/
def handle_pull_requestTraced (svc : ApiService) (h : GitHubEventHandler)
    (payload : Payload) (event : String) :
    Except Err ((List Change × String) × List ApiCall) := do
  let number ← getK "number" payload.number
  let refname := "refs/pull/" ++ toString number ++ "/merge"
  let pr ← getK "pull_request" payload.pull_request
  let commits ← getK "commits" pr.commits
  let title ← getK "title" pr.title
  let body0 ← getK "body" pr.body
  let head ← getK "head" pr.head
  let head_sha ← getK "sha" head.sha
  let action := payload.action
  if !(action == some "opened" || action == some "reopened" || action == some "synchronize") then
    Except.ok (([], "git"), [])
  else do
    let properties := dictUpdate (extractPropsPR pr) [("event", .str event)]
    let user ← getK "user" pr.user
    let user_login ← getK "login" user.login
    let base ← getK "base" pr.base
    let baseUser ← getK "user" base.user
    let _repo_owner ← getK "login" baseUser.login
    let baseRepo ← getK "repo" base.repo
    let _repo_name ← getK "name" baseRepo.name
    let comments0 : List String :=
      ["GitHub Pull Request #" ++ toString number ++ " (" ++ toString commits ++ " commit" ++
        (if commits != 1 then "s" else "") ++ ")\n" ++ title ++ "\n" ++ body0]
    if hasApiService h then
      let trace := [ApiCall.getChangedFiles, ApiCall.getPullRequestChanges]
      match prDetailsLoop regexSearch h head_sha user_login svc.pr_changes [] [] none with
      | .aborted => Except.ok (([], "git"), trace)
      | .done cs ow ca =>
        prFinish dparse h payload pr baseRepo head_sha refname user_login comments0 properties
          (some svc.changed_files) cs ow ca trace
    else
      prFinish dparse h payload pr baseRepo head_sha refname user_login comments0 properties
        none [] [] none []

/-- Embedding of `GitHubEventHandler.handle_pull_request` (the source's return value). -/
def handle_pull_request (svc : ApiService) (h : GitHubEventHandler)
    (payload : Payload) (event : String) : Except Err (List Change × String) :=
  (handle_pull_requestTraced regexSearch dparse extractPropsPR svc h payload event).map Prod.fst

end PREmbedding

section ProcessEmbedding

variable (regexSearch : String → String → Bool)
variable (dparse : String → Option Nat)
variable (jsonLoads : String → Option Payload)
variable (extractPropsPush : Payload → Props)
variable (extractPropsPR : PullRequestObj → Props)

/-- Embedding of `GitHubEventHandler.process`: extract the payload, then dispatch on the
event-type header via `getattr(self, 'handle_{}'.format(event_type))`; the
handler methods that exist are `handle_ping`, `handle_push` and
`handle_pull_request`, so every other event name (including a missing
header, which formats as `None`) raises the unknown-event `ValueError`. -/
def process (svc : ApiService) (h : GitHubEventHandler) (req : Request) :
    Except Err (List Change × String) := do
  let payload ← get_payload jsonLoads h req
  let event_type := req.getHeader HEADER_EVENT
  match event_type with
  | some "ping" => handle_ping payload "ping"
  | some "push" => handle_push regexSearch dparse extractPropsPush h payload "push"
  | some "pull_request" =>
    handle_pull_request regexSearch dparse extractPropsPR svc h payload "pull_request"
  | _ => Except.error (.valueError ("Unknown event: " ++ pyFormatOpt event_type))

end ProcessEmbedding

/-! ## Concrete fixtures used by witnesses and counterexamples -/

/-- A payload with every key absent. -/
def emptyPayload : Payload :=
  { ref := none, deleted := none, created := none, head_commit := none, commits := none,
    repository := none, number := none, action := none, pull_request := none }

/-- A JSON decoder stub that decodes every body to `emptyPayload`. -/
def jsonConst : String → Option Payload := fun _ => some emptyPayload

/-- A regex-search stub under which no pattern matches. -/
def noMatchRegex : String → String → Bool := fun _ _ => false

/-- A regex-search stub under which every pattern matches every message. -/
def allMatchRegex : String → String → Bool := fun _ _ => true

/-- A timestamp-parser stub. -/
def parse0 : String → Option Nat := fun _ => some 0

/-- A whitelist extractor yielding no push properties. -/
def noPropsPush : Payload → Props := fun _ => []

/-- A whitelist extractor yielding no pull-request properties. -/
def noPropsPR : PullRequestObj → Props := fun _ => []

/-- A handler with no secret, strict off, and no enrichment credentials. -/
def plainHdl : GitHubEventHandler :=
  { secret := none, strict := false, token := none, codebase := .cbNone,
    github_property_whitelist := [], skips := DEFAULT_SKIPS_PATTERN,
    github_api_endpoint := none, debug := false, verify := false,
    integration_id := none, private_key := none, installation_id := none }

/-- A handler with a secret configured and strict mode off. -/
def secretHdl : GitHubEventHandler := { plainHdl with secret := some "sekrit" }

/-- A handler with a secret configured and strict mode on. -/
def strictHdl : GitHubEventHandler := { plainHdl with secret := some "sekrit", strict := true }

/-- A JSON request carrying no signature header. -/
def noSigReq : Request :=
  { content := "{}", headers := [("Content-Type", "application/json")], args_payload := none }

/-- A JSON request carrying the signature header `sha1=ff`. -/
def sigReq : Request :=
  { content := "{}",
    headers := [("Content-Type", "application/json"), ("X-Hub-Signature", "sha1=ff")],
    args_payload := none }

/-- The empty enrichment-service data, for fixtures. -/
def emptySvc : ApiService := { changed_files := [], pr_changes := [] }

/-- Constructor arguments requesting strict mode without a secret. -/
def strictNoSecretArgs : HandlerArgs :=
  { secret := none, strict := true, codebase := .cbNone, github_property_whitelist := none,
    skips := none, github_api_endpoint := none, token := none, debug := false, verify := false,
    integration_id := none, private_key := none, installation_id := none }

/-- Constructor arguments with strict off and the API endpoint omitted. -/
def noEndpointArgs : HandlerArgs := { strictNoSecretArgs with strict := false }

/-- The handler `__init__` produces from `noEndpointArgs`. -/
def defaultedHdl : GitHubEventHandler :=
  { secret := none, strict := false, token := none, codebase := .cbNone,
    github_property_whitelist := [], skips := DEFAULT_SKIPS_PATTERN,
    github_api_endpoint := none, debug := false, verify := false,
    integration_id := none, private_key := none, installation_id := none }

/-! ## C1 -/

/-- C1 counterexample: with a secret configured but strict mode off, a
request lacking the signature header passes verification and is decoded
successfully, so "a request lacking a signature is never accepted when a
secret is configured (even with strict mode off)" is false on the code. -/
theorem C1_counterexample :
    pyTruthy secretHdl.secret = true ∧ secretHdl.strict = false ∧
    noSigReq.getHeader HEADER_SIGNATURE = none ∧
    verifySignature secretHdl noSigReq = .ok () ∧
    get_payload jsonConst secretHdl noSigReq = .ok emptyPayload :=
  ⟨rfl, rfl, rfl, rfl, rfl⟩

/-- C1 (amended): with no signature header, verification raises the
authentication `ValueError` exactly when strict mode is on; when strict
mode is off the request proceeds past verification whether or not a
secret is configured. -/
theorem C1_no_signature_strict_decides (h : GitHubEventHandler) (req : Request)
    (hsig : req.getHeader HEADER_SIGNATURE = none) :
    verifySignature h req =
      if h.strict then .error (.valueError "Request has no required signature")
      else .ok () := by
  unfold verifySignature
  rw [hsig]
  cases hs : h.strict <;> simp [pyTruthy, hs]

/-- C1 witness: the amended theorem applied to a strict handler and a
request with no signature header. -/
theorem C1_witness :
    verifySignature strictHdl noSigReq =
      if strictHdl.strict then .error (.valueError "Request has no required signature")
      else .ok () :=
  C1_no_signature_strict_decides strictHdl noSigReq rfl

/-! ## C2 -/

/-- C2 counterexample: a strict handler with no secret configured is not a
valid configuration — `__init__` raises `ValueError`. -/
theorem C2_counterexample :
    GitHubEventHandler.init strictNoSecretArgs =
      .error (.valueError "Strict mode is requested while no secret is provided") := rfl

/-- C2 (amended): with strict mode on, every request lacking a signature
header fails with the authentication error; but strict mode with no secret
is rejected at construction time, so no constructed strict handler lacks a
secret. -/
theorem C2_strict_unsigned_fails :
    (∀ (jl : String → Option Payload) (h : GitHubEventHandler) (req : Request),
      h.strict = true → req.getHeader HEADER_SIGNATURE = none →
      get_payload jl h req = .error (.valueError "Request has no required signature")) ∧
    (∀ a : HandlerArgs, a.strict = true → pyTruthy a.secret = false →
      GitHubEventHandler.init a =
        .error (.valueError "Strict mode is requested while no secret is provided")) := by
  constructor
  · intro jl h req hstrict hsig
    unfold get_payload verifySignature
    rw [hsig]
    simp [pyTruthy, hstrict, Bind.bind, Except.bind]
  · intro a hstrict hsec
    unfold GitHubEventHandler.init
    simp [hstrict, hsec]

/-- C2 witness: the theorem applied to a strict handler with an unsigned
request, and to the strict-without-secret constructor arguments. -/
theorem C2_witness :
    get_payload jsonConst strictHdl noSigReq =
      .error (.valueError "Request has no required signature") ∧
    GitHubEventHandler.init strictNoSecretArgs =
      .error (.valueError "Strict mode is requested while no secret is provided") :=
  ⟨C2_strict_unsigned_fails.1 jsonConst strictHdl noSigReq rfl rfl,
   C2_strict_unsigned_fails.2 strictNoSecretArgs rfl rfl⟩

/-! ## C10 -/

/-- C10: a successfully constructed handler stores the original
API-endpoint argument — the default substituted for `None` is overwritten
by the re-assignment, so an omitted endpoint is stored as `None` and the
default endpoint constant is never in effect. -/
theorem C10_endpoint_never_defaulted (a : HandlerArgs) (h : GitHubEventHandler)
    (hok : GitHubEventHandler.init a = .ok h) :
    h.github_api_endpoint = a.github_api_endpoint ∧
    (a.github_api_endpoint = none → h.github_api_endpoint = none) := by
  unfold GitHubEventHandler.init at hok
  split at hok
  · cases hok
  · cases hok
    exact ⟨rfl, fun he => he⟩

/-- C10 witness: constructing with the endpoint omitted yields a handler
whose stored endpoint is `None`. -/
theorem C10_witness : defaultedHdl.github_api_endpoint = none :=
  (C10_endpoint_never_defaulted noEndpointArgs defaultedHdl rfl).2 rfl

/-! ## C5 -/

/-- C5: when a secret is configured and a truthy signature header is
present, verification succeeds iff the header splits on `=` into exactly
`sha1` and the HMAC-SHA1 hex digest of the raw body under the secret; in
every other case it fails with a `ValueError`. -/
theorem C5_signature_verification (h : GitHubEventHandler) (req : Request) (s : String)
    (hsec : pyTruthy h.secret = true)
    (hsig : req.getHeader HEADER_SIGNATURE = some s)
    (hs : pyTruthy (some s) = true) :
    (verifySignature h req = .ok () ↔
      pySplitEq s = ["sha1", hmacSha1Hex (h.secret.getD "") req.content]) ∧
    (verifySignature h req = .ok () ∨
      ∃ m, verifySignature h req = .error (.valueError m)) := by
  unfold verifySignature
  simp only [hsig, hs, hsec, Option.getD_some, Bool.not_true, Bool.false_and, Bool.true_and,
    Bool.and_self, Bool.false_eq_true, if_false]
  constructor
  · cases hsp : pySplitEq s with
    | nil => simp
    | cons a t =>
      cases t with
      | nil => simp
      | cons b t2 =>
        cases t2 with
        | cons c t3 => simp
        | nil =>
          by_cases ha : a = "sha1"
          · subst ha
            by_cases hb : hmacSha1Hex (h.secret.getD "") req.content = b
            · subst hb
              simp
            · simp [bne_iff_ne, hb, Ne.symm hb]
          · simp [bne_iff_ne, ha]
  · cases hsp : pySplitEq s with
    | nil => exact Or.inr ⟨_, rfl⟩
    | cons a t =>
      cases t with
      | nil => exact Or.inr ⟨_, rfl⟩
      | cons b t2 =>
        cases t2 with
        | cons c t3 => exact Or.inr ⟨_, rfl⟩
        | nil =>
          by_cases ha : a = "sha1"
          · subst ha
            by_cases hb : hmacSha1Hex (h.secret.getD "") req.content = b
            · subst hb
              simp
            · right
              refine ⟨"Hash mismatch", ?_⟩
              simp [bne_iff_ne, hb]
          · right
            refine ⟨"Unknown hash type: " ++ a, ?_⟩
            simp [bne_iff_ne, ha]

/-- C5 witness: the theorem applied to a handler with a secret and a
request signed with the (ill-formed digest) header `sha1=ff`. -/
theorem C5_witness :
    (verifySignature secretHdl sigReq = .ok () ↔
      pySplitEq "sha1=ff" = ["sha1", hmacSha1Hex (secretHdl.secret.getD "") sigReq.content]) :=
  (C5_signature_verification secretHdl sigReq "sha1=ff" rfl rfl rfl).1

/-! ## Shared inversion lemmas for the push normalizer -/

/-- Lookup through `dict.update`: the updating dict's binding wins on a
key collision, otherwise the base dict's binding remains. -/
theorem lookup_dictUpdate (base upd : Props) (k : String) :
    (dictUpdate base upd).lookup k = (upd.lookup k).or (base.lookup k) := by
  induction base with
  | nil =>
    unfold dictUpdate
    cases h : upd.lookup k <;> simp [h, Option.or]
  | cons p t ih =>
    obtain ⟨k0, v0⟩ := p
    unfold dictUpdate at ih ⊢
    rw [List.filter_cons]
    cases hk0 : upd.lookup k0 with
    | some v =>
      simp only [hk0, Option.isNone_some, Bool.false_eq_true, if_false]
      cases hk : k == k0 with
      | true =>
        have hkk : k = k0 := by simpa using hk
        subst hkk
        simp [List.lookup, ih, hk0, Option.or]
      | false =>
        simp [List.lookup, hk, ih]
    | none =>
      simp only [hk0, Option.isNone_none, if_true]
      cases hk : k == k0 with
      | true =>
        have hkk : k = k0 := by simpa using hk
        subst hkk
        simp [List.lookup, ih, hk0, Option.or]
      | false =>
        simp [List.lookup, hk, ih]

/-- Every element of a successful `mapMExcept` run comes from applying `f`
to some element of the input list. -/
theorem mapMExcept_mem {α β : Type} {f : α → Except Err β} :
    ∀ {l : List α} {res : List β}, mapMExcept f l = .ok res →
      ∀ b ∈ res, ∃ a ∈ l, f a = .ok b := by
  intro l
  induction l with
  | nil =>
    intro res h b hb
    simp [mapMExcept] at h
    subst h
    cases hb
  | cons a t ih =>
    intro res h b hb
    unfold mapMExcept at h
    cases hfa : f a with
    | error e => rw [hfa] at h; simp [Bind.bind, Except.bind] at h
    | ok b0 =>
      rw [hfa] at h
      cases hmt : mapMExcept f t with
      | error e => rw [hmt] at h; simp [Bind.bind, Except.bind] at h
      | ok res0 =>
        rw [hmt] at h
        simp only [Bind.bind, Except.bind, Except.ok.injEq] at h
        subst h
        cases hb with
        | head => exact ⟨a, List.mem_cons_self a t, hfa⟩
        | tail _ hb2 =>
          obtain ⟨a1, ha1, hfa1⟩ := ih hmt b hb2
          exact ⟨a1, List.mem_cons_of_mem a ha1, hfa1⟩

/-- Inversion of a successful `processCommit`: the emitted change carries
the loop's branch/repository/project/category, its revision is the
commit's id, its files are added ++ modified ++ removed, and its
properties are the per-commit dict updated by the caller's properties. -/
theorem processCommit_ok {dp : String → Option Nat} {h : GitHubEventHandler}
    {payload : Payload} {repo_url project event : String} {props : Props}
    {cat : Option String} {branch : String} {k : Commit} {c : Change}
    (hok : processCommit dp h payload repo_url project event props cat branch k = .ok c) :
    c.properties = dictUpdate
      [("github_distinct", .bool (k.distinct.getD true)), ("event", .str event)] props ∧
    c.branch = branch ∧ c.repository = repo_url ∧ c.project = project ∧
    c.category = cat ∧ k.id = some c.revision ∧
    c.files = some ((k.added.getD []) ++ (k.modified.getD []) ++ (k.removed.getD [])) := by
  unfold processCommit at hok
  cases hts : k.timestamp with
  | none =>
    rw [hts] at hok
    simp [getK, Bind.bind, Except.bind, pure, Except.pure] at hok
  | some ts =>
    rw [hts] at hok
    simp only [getK, Bind.bind, Except.bind] at hok
    cases hdp : dp ts with
    | none => rw [hdp] at hok; simp [pure, Except.pure] at hok
    | some t =>
      rw [hdp] at hok
      simp only [pure, Except.pure] at hok
      cases hau : k.author with
      | none => rw [hau] at hok; simp [getK, pure, Except.pure, Bind.bind, Except.bind] at hok
      | some au =>
        rw [hau] at hok
        simp only [getK] at hok
        cases hnm : au.name with
        | none => rw [hnm] at hok; simp [getK, pure, Except.pure, Bind.bind, Except.bind] at hok
        | some nm =>
          rw [hnm] at hok
          simp only [getK] at hok
          cases hem : au.email with
          | none => rw [hem] at hok; simp [getK, pure, Except.pure, Bind.bind, Except.bind] at hok
          | some em =>
            rw [hem] at hok
            simp only [getK] at hok
            cases hid : k.id with
            | none => rw [hid] at hok; simp [getK, pure, Except.pure, Bind.bind, Except.bind] at hok
            | some idv =>
              rw [hid] at hok
              simp only [getK] at hok
              cases hmsg : k.message with
              | none =>
                rw [hmsg] at hok
                simp [getK, pure, Except.pure, Bind.bind, Except.bind] at hok
              | some msg =>
                rw [hmsg] at hok
                simp only [getK] at hok
                cases hurl : k.url with
                | none =>
                  rw [hurl] at hok
                  simp [getK, pure, Except.pure, Bind.bind, Except.bind] at hok
                | some url =>
                  rw [hurl] at hok
                  simp only [getK] at hok
                  cases hok
                  exact ⟨rfl, rfl, rfl, rfl, rfl, rfl, rfl⟩

/-! ## C4 -/

/-- C4: every change the push normalizer emits has as its properties the
per-commit dict `{github_distinct (default true), event}` updated by the
caller-supplied whitelist properties, so on any key collision the
caller's value overwrites the per-commit computed value. -/
theorem C4_properties_update (rs : String → String → Bool) (dp : String → Option Nat)
    (h : GitHubEventHandler) (payload : Payload)
    (repo_url project event : String) (props : Props) (changes : List Change)
    (hok : process_change rs dp h payload repo_url project event props = .ok changes) :
    ∀ c ∈ changes, ∃ k,
      (k ∈ (if payload.created.getD false
            then payload.head_commit.elim [] (fun hc => [hc])
            else payload.commits.getD [])) ∧
      c.properties = dictUpdate
        [("github_distinct", .bool (k.distinct.getD true)), ("event", .str event)] props ∧
      ∀ key, c.properties.lookup key =
        (props.lookup key).or
          (([("github_distinct", PropValue.bool (k.distinct.getD true)),
             ("event", PropValue.str event)] : Props).lookup key) := by
  unfold process_change at hok
  cases href : payload.ref with
  | none => rw [href] at hok; simp [getK, Bind.bind, Except.bind] at hok
  | some r =>
    rw [href] at hok
    simp only [getK, Bind.bind, Except.bind] at hok
    cases hmr : matchRefHeadsTags r with
    | none =>
      simp only [hmr] at hok
      cases hok
      intro c hc; cases hc
    | some gp =>
      obtain ⟨g1, br⟩ := gp
      simp only [hmr] at hok
      cases hdel : payload.deleted.getD false with
      | true =>
        simp only [hdel, if_true] at hok
        cases hok
        intro c hc; cases hc
      | false =>
        simp only [hdel, Bool.false_eq_true, if_false] at hok
        cases hhc : payload.head_commit with
        | none => rw [hhc] at hok; simp [getK, Bind.bind, Except.bind] at hok
        | some hc0 =>
          rw [hhc] at hok
          simp only [getK, Bind.bind, Except.bind] at hok
          cases hskip : has_skip rs h (hc0.message.getD "") with
          | true =>
            simp only [hskip, if_true] at hok
            cases hok
            intro c hcm; cases hcm
          | false =>
            simp only [hskip, Bool.false_eq_true, if_false] at hok
            cases hcs : payload.commits with
            | none => rw [hcs] at hok; simp [getK, Bind.bind, Except.bind] at hok
            | some cs =>
              rw [hcs] at hok
              simp only [getK, Bind.bind, Except.bind] at hok
              intro c hc
              obtain ⟨k, hk, hfk⟩ := mapMExcept_mem hok c hc
              obtain ⟨hprops, _, _, _, _, _, _⟩ := processCommit_ok hfk
              refine ⟨k, ?_, hprops, ?_⟩
              · by_cases hcr : payload.created.getD false = true
                · rw [if_pos hcr] at hk ⊢
                  exact hk
                · rw [if_neg hcr] at hk ⊢
                  exact hk
              · intro key
                rw [hprops, lookup_dictUpdate]

/-- A concrete push commit used by witnesses; its `distinct` flag is
`false` so the emitted property differs from the default. -/
def fixCommit : Commit :=
  { id := some "deadbeef", message := some "commit msg", timestamp := some "2020-01-01",
    author := some { name := some "Ann", email := some "ann@x" }, url := some "http://c",
    distinct := some false, added := some ["a"], modified := none, removed := some ["r"] }

/-- A concrete push payload on `refs/heads/main` with one commit. -/
def fixPushPayload : Payload :=
  { ref := some "refs/heads/main", deleted := none, created := none,
    head_commit := some fixCommit, commits := some [fixCommit],
    repository := some { name := some "repo", html_url := some "http://r",
                         full_name := some "own/repo" },
    number := none, action := none, pull_request := none }

/-- Whitelist properties whose `event` key collides with the computed one. -/
def fixProps : Props := [("event", .str "overridden"), ("extra", .str "w")]

/-- The changes the push normalizer emits on the fixture. -/
def c4res : List Change :=
  match process_change noMatchRegex parse0 plainHdl fixPushPayload
      "http://r" "own/repo" "push" fixProps with
  | .ok cs => cs
  | .error _ => []

/-- A placeholder change used only as the default of `List.headD`. -/
def dummyChange : Change :=
  { author := "", files := none, comments := "", revision := "", when_timestamp := 0,
    branch := "", revlink := "", repository := "", project := "", properties := [],
    category := none, codebase := none }

/-- The first change the push normalizer emits on the fixture. -/
def c4head : Change := c4res.headD dummyChange

/-- C4 witness: the theorem applied to the one-commit fixture whose
caller properties override the `event` key, instantiated at the emitted
change. -/
theorem C4_witness :
    ∃ k,
      (k ∈ (if fixPushPayload.created.getD false
            then fixPushPayload.head_commit.elim [] (fun hc => [hc])
            else fixPushPayload.commits.getD [])) ∧
      c4head.properties = dictUpdate
        [("github_distinct", .bool (k.distinct.getD true)), ("event", .str "push")] fixProps ∧
      ∀ key, c4head.properties.lookup key =
        (fixProps.lookup key).or
          (([("github_distinct", PropValue.bool (k.distinct.getD true)),
             ("event", PropValue.str "push")] : Props).lookup key) :=
  C4_properties_update noMatchRegex parse0 plainHdl fixPushPayload
    "http://r" "own/repo" "push" fixProps c4res rfl c4head (List.Mem.head _)

/-! ## Shared inversion lemmas for the pull-request normalizer -/

/-- A successful `(.+)$` group is a non-empty string. -/
theorem refGroup_branch_nonempty {kind : String} {b : List Char} {g1 br : String}
    (hm : refGroup kind b = some (g1, br)) : br ≠ "" := by
  unfold refGroup at hm
  split at hm
  · cases hm
  · rename_i hcond
    cases hm
    intro he
    have hdata := congrArg String.data he
    simp only [show ("".data = ([] : List Char)) from rfl] at hdata
    rw [hdata] at hcond
    simp at hcond

/-- A matched ref always yields a non-empty branch name (group 2). -/
theorem matchRef_branch_nonempty {r g1 br : String}
    (hm : matchRefHeadsTags r = some (g1, br)) : br ≠ "" := by
  unfold matchRefHeadsTags at hm
  split at hm
  · exact refGroup_branch_nonempty hm
  · split at hm
    · exact refGroup_branch_nonempty hm
    · cases hm

/-- Inversion of a successful `prFinish`: exactly one change is emitted,
tagged `git`, with the PR head sha as revision, the synthetic merge ref as
branch, category `pull`, the given files option verbatim, and the owners
property added only when the owners set is non-empty. -/
theorem prFinish_ok {dp : String → Option Nat} {h : GitHubEventHandler} {payload : Payload}
    {pr : PullRequestObj} {baseRepo : PRBaseRepo} {head_sha refname user_login : String}
    {comments0 : List String} {properties : Props} {files : Option (List String)}
    {cs ow : List String} {ca : Option String} {trace : List ApiCall}
    {res : (List Change × String) × List ApiCall}
    (hok : prFinish dp h payload pr baseRepo head_sha refname user_login comments0 properties
      files cs ow ca trace = .ok res) :
    ∃ c, res = (([c], "git"), trace) ∧ c.revision = head_sha ∧ c.branch = refname ∧
      c.category = some "pull" ∧ c.files = files ∧
      c.properties = (if !ow.isEmpty then dictUpdate properties [("owners", .strList ow)]
                      else properties) ∧
      (∃ repo, payload.repository = some repo ∧ repo.html_url = some c.repository) ∧
      baseRepo.full_name = some c.project := by
  unfold prFinish at hok
  cases hca : pr.created_at with
  | none => rw [hca] at hok; simp [getK, Bind.bind, Except.bind] at hok
  | some cat0 =>
    rw [hca] at hok
    simp only [getK, Bind.bind, Except.bind] at hok
    cases hdp : dp cat0 with
    | none => rw [hdp] at hok; simp [pure, Except.pure] at hok
    | some ts =>
      rw [hdp] at hok
      simp only [pure, Except.pure] at hok
      cases hlk : pr.links with
      | none => rw [hlk] at hok; simp [getK, Bind.bind, Except.bind] at hok
      | some links =>
        rw [hlk] at hok
        simp only [getK] at hok
        cases hhr : links.html_href with
        | none => rw [hhr] at hok; simp [getK, Bind.bind, Except.bind] at hok
        | some href =>
          rw [hhr] at hok
          simp only [getK] at hok
          cases hrp : payload.repository with
          | none => rw [hrp] at hok; simp [getK, Bind.bind, Except.bind] at hok
          | some repo =>
            rw [hrp] at hok
            simp only [getK] at hok
            cases hhu : repo.html_url with
            | none => rw [hhu] at hok; simp [getK, Bind.bind, Except.bind] at hok
            | some rhtml =>
              rw [hhu] at hok
              simp only [getK] at hok
              cases hfn : baseRepo.full_name with
              | none => rw [hfn] at hok; simp [getK, Bind.bind, Except.bind] at hok
              | some proj =>
                rw [hfn] at hok
                simp only [getK] at hok
                cases hok
                refine ⟨_, rfl, rfl, rfl, rfl, rfl, rfl, ⟨repo, ?_, ?_⟩, ?_⟩
                · first
                  | rfl
                  | exact hrp
                · first
                  | rfl
                  | exact hhu
                · first
                  | rfl
                  | exact hfn

/-- The detail loop aborts whenever the mapping contains an entry for the
head sha whose message matches a skip pattern, regardless of the
accumulators or of what follows the entry. -/
theorem prDetailsLoop_aborted (rs : String → String → Bool) (h : GitHubEventHandler)
    (head_sha user_login : String) (d : CommitDetails)
    (hskip : has_skip rs h d.message = true) :
    ∀ (l : List (String × CommitDetails)) (cs ow : List String) (ca : Option String),
      (head_sha, d) ∈ l →
      prDetailsLoop rs h head_sha user_login l cs ow ca = .aborted := by
  intro l
  induction l with
  | nil => intro cs ow ca hm; cases hm
  | cons p t ih =>
    intro cs ow ca hm
    obtain ⟨sha, det⟩ := p
    cases hm with
    | head =>
      unfold prDetailsLoop
      simp [hskip]
    | tail _ hm2 =>
      unfold prDetailsLoop
      by_cases habort : (sha == head_sha && has_skip rs h det.message) = true
      · simp [habort]
      · simp only [habort, Bool.false_eq_true, if_false]
        exact ih _ _ _ hm2



/-- Inversion of a successful pull-request normalization: the payload had
a number and a pull_request object, and the result is either empty or one
change whose revision is the head sha, whose branch is the synthetic merge
ref, whose category is `pull`, whose repository/project are copied from
the payload, and which — when no enrichment client is available — has no
files and exactly the whitelist-plus-event properties. -/
theorem handle_pr_traced_ok {rs : String → String → Bool} {dp : String → Option Nat}
    {epr : PullRequestObj → Props} {svc : ApiService} {h : GitHubEventHandler}
    {payload : Payload} {event : String} {res : (List Change × String) × List ApiCall}
    (hok : handle_pull_requestTraced rs dp epr svc h payload event = .ok res) :
    ∃ n pr, payload.number = some n ∧ payload.pull_request = some pr ∧
      (res.1.1 = [] ∨
        ∃ hd sha c, pr.head = some hd ∧ hd.sha = some sha ∧ res.1.1 = [c] ∧
          c.revision = sha ∧ c.branch = "refs/pull/" ++ toString n ++ "/merge" ∧
          c.category = some "pull" ∧
          (∃ repo, payload.repository = some repo ∧ repo.html_url = some c.repository) ∧
          (∃ b brepo, pr.base = some b ∧ b.repo = some brepo ∧
            brepo.full_name = some c.project) ∧
          (hasApiService h = false →
            c.files = none ∧ c.properties = dictUpdate (epr pr) [("event", .str event)])) := by
  unfold handle_pull_requestTraced at hok
  cases hn : payload.number with
  | none => rw [hn] at hok; simp [getK, Bind.bind, Except.bind] at hok
  | some n =>
    rw [hn] at hok
    simp only [getK, Bind.bind, Except.bind] at hok
    cases hpr : payload.pull_request with
    | none => rw [hpr] at hok; simp [getK, Bind.bind, Except.bind] at hok
    | some pr =>
      rw [hpr] at hok
      simp only [getK] at hok
      cases hcm : pr.commits with
      | none => rw [hcm] at hok; simp [getK, Bind.bind, Except.bind] at hok
      | some cms =>
        rw [hcm] at hok
        simp only [getK] at hok
        cases htt : pr.title with
        | none => rw [htt] at hok; simp [getK, Bind.bind, Except.bind] at hok
        | some ttl =>
          rw [htt] at hok
          simp only [getK] at hok
          cases hbd : pr.body with
          | none => rw [hbd] at hok; simp [getK, Bind.bind, Except.bind] at hok
          | some bdy =>
            rw [hbd] at hok
            simp only [getK] at hok
            cases hhd : pr.head with
            | none => rw [hhd] at hok; simp [getK, Bind.bind, Except.bind] at hok
            | some hd =>
              rw [hhd] at hok
              simp only [getK] at hok
              cases hsha : hd.sha with
              | none => rw [hsha] at hok; simp [getK, Bind.bind, Except.bind] at hok
              | some sha =>
                rw [hsha] at hok
                simp only [getK] at hok
                split at hok
                · cases hok
                  exact ⟨n, pr, rfl, rfl, Or.inl rfl⟩
                · cases hus : pr.user with
                  | none => rw [hus] at hok; simp [getK, Bind.bind, Except.bind] at hok
                  | some usr =>
                    rw [hus] at hok
                    simp only [getK] at hok
                    cases hul : usr.login with
                    | none => rw [hul] at hok; simp [getK, Bind.bind, Except.bind] at hok
                    | some ulogin =>
                      rw [hul] at hok
                      simp only [getK] at hok
                      cases hbs : pr.base with
                      | none => rw [hbs] at hok; simp [getK, Bind.bind, Except.bind] at hok
                      | some bse =>
                        rw [hbs] at hok
                        simp only [getK] at hok
                        cases hbu : bse.user with
                        | none => rw [hbu] at hok; simp [getK, Bind.bind, Except.bind] at hok
                        | some bu =>
                          rw [hbu] at hok
                          simp only [getK] at hok
                          cases hbl : bu.login with
                          | none => rw [hbl] at hok; simp [getK, Bind.bind, Except.bind] at hok
                          | some rowner =>
                            rw [hbl] at hok
                            simp only [getK] at hok
                            cases hbr : bse.repo with
                            | none => rw [hbr] at hok; simp [getK, Bind.bind, Except.bind] at hok
                            | some brepo =>
                              rw [hbr] at hok
                              simp only [getK] at hok
                              cases hbn : brepo.name with
                              | none =>
                                rw [hbn] at hok
                                simp [getK, Bind.bind, Except.bind] at hok
                              | some rname =>
                                rw [hbn] at hok
                                simp only [getK] at hok
                                cases hsvc : hasApiService h with
                                | false =>
                                  rw [hsvc] at hok
                                  simp only [Bool.false_eq_true, if_false] at hok
                                  obtain ⟨c, hres, hrev, hbrn, hcat, hfiles, hprops, hrepo,
                                    hproj⟩ := prFinish_ok hok
                                  refine ⟨n, pr, rfl, rfl, Or.inr
                                    ⟨hd, sha, c, hhd, hsha, ?_, hrev, hbrn, hcat, hrepo,
                                     ⟨bse, brepo, hbs, hbr, hproj⟩, fun _ => ⟨hfiles, ?_⟩⟩⟩
                                  · rw [hres]
                                  · rw [hprops]
                                    simp
                                | true =>
                                  rw [hsvc] at hok
                                  simp only [if_true] at hok
                                  cases hloop : prDetailsLoop rs h sha ulogin svc.pr_changes
                                      [] [] none with
                                  | aborted =>
                                    rw [hloop] at hok
                                    simp only [] at hok
                                    cases hok
                                    exact ⟨n, pr, rfl, rfl, Or.inl rfl⟩
                                  | done cs ow ca =>
                                    rw [hloop] at hok
                                    simp only [] at hok
                                    obtain ⟨c, hres, hrev, hbrn, hcat, hfiles, hprops, hrepo,
                                      hproj⟩ := prFinish_ok hok
                                    refine ⟨n, pr, rfl, rfl, Or.inr
                                      ⟨hd, sha, c, hhd, hsha, ?_, hrev, hbrn, hcat, hrepo,
                                       ⟨bse, brepo, hbs, hbr, hproj⟩, fun hcontra => ?_⟩⟩
                                    · rw [hres]
                                    · simp at hcontra



/-! ## C6 -/

/-- C6: with an enrichment client configured, a PR whose commit-detail
mapping has an entry for the head sha with a skip-matching message yields
zero changes, with both enrichment calls (changed files first) already
made; the result is the same for any entries following that one, so the
abort happens at its discovery, not after full aggregation. -/
theorem C6_head_skip_aborts (rs : String → String → Bool) (dp : String → Option Nat)
    (epr : PullRequestObj → Props) (svc : ApiService) (h : GitHubEventHandler)
    (payload : Payload) (event : String)
    (n : Nat) (pr : PullRequestObj) (cms : Nat) (ttl bdy : String) (hd : PRHead)
    (sha : String) (usr : PRUser) (ulogin : String) (bse : PRBase) (bu : PRUser)
    (rowner : String) (brepo : PRBaseRepo) (rname : String) (d : CommitDetails)
    (hn : payload.number = some n) (hpr : payload.pull_request = some pr)
    (hcm : pr.commits = some cms) (htt : pr.title = some ttl) (hbd : pr.body = some bdy)
    (hhd : pr.head = some hd) (hsha : hd.sha = some sha)
    (hact : payload.action = some "opened" ∨ payload.action = some "reopened" ∨
      payload.action = some "synchronize")
    (hus : pr.user = some usr) (hul : usr.login = some ulogin)
    (hbs : pr.base = some bse) (hbu : bse.user = some bu) (hbl : bu.login = some rowner)
    (hbr : bse.repo = some brepo) (hbn : brepo.name = some rname)
    (hsvc : hasApiService h = true)
    (hmem : (sha, d) ∈ svc.pr_changes)
    (hskip : has_skip rs h d.message = true) :
    handle_pull_requestTraced rs dp epr svc h payload event =
      .ok (([], "git"), [ApiCall.getChangedFiles, ApiCall.getPullRequestChanges]) := by
  unfold handle_pull_requestTraced
  simp only [hn, hpr, hcm, htt, hbd, hhd, hsha, hus, hul, hbs, hbu, hbl, hbr, hbn,
    getK, Bind.bind, Except.bind]
  have hcond : (!(payload.action == some "opened" || payload.action == some "reopened" ||
      payload.action == some "synchronize")) = false := by
    rcases hact with ha | ha | ha <;> simp [ha]
  simp only [hcond, Bool.false_eq_true, if_false]
  rw [prDetailsLoop_aborted rs h sha ulogin d hskip svc.pr_changes [] [] none hmem]
  simp [hsvc]

/-! ## C7 -/

/-- C7: with no enrichment client (no token, no app-credential triple),
every change a pull-request normalization emits has no `files` key at all
and no "owners" property (given that the external whitelist extractor,
whose keys are `github.`-prefixed, contributes no "owners" key). -/
theorem C7_no_enrichment_no_files_no_owners (rs : String → String → Bool)
    (dp : String → Option Nat) (epr : PullRequestObj → Props) (svc : ApiService)
    (h : GitHubEventHandler) (payload : Payload) (event : String)
    (changes : List Change) (tag : String)
    (hsvc : hasApiService h = false)
    (hok : handle_pull_request rs dp epr svc h payload event = .ok (changes, tag))
    (howners : ∀ pr, payload.pull_request = some pr → (epr pr).lookup "owners" = none) :
    ∀ c ∈ changes, c.files = none ∧ c.properties.lookup "owners" = none := by
  unfold handle_pull_request at hok
  cases htr : handle_pull_requestTraced rs dp epr svc h payload event with
  | error e => rw [htr] at hok; simp [Except.map] at hok
  | ok res =>
    rw [htr] at hok
    simp only [Except.map, Except.ok.injEq] at hok
    have hch : res.1.1 = changes := by rw [hok]
    obtain ⟨n, pr, hn, hpr, hdisj⟩ := handle_pr_traced_ok htr
    rcases hdisj with hempty |
      ⟨hd, sha, c, hhd, hsha, hres, hrev, hbrn, hcat, hrepo, hproj, hsvcf⟩
    · intro c0 hc0
      rw [← hch, hempty] at hc0
      cases hc0
    · intro c0 hc0
      rw [← hch, hres] at hc0
      have hc0c : c0 = c := List.mem_singleton.mp hc0
      subst hc0c
      obtain ⟨hfiles, hprops⟩ := hsvcf hsvc
      refine ⟨hfiles, ?_⟩
      rw [hprops, lookup_dictUpdate]
      rw [howners pr hpr]
      simp [List.lookup, show (("owners" : String) == "event") = false from by decide,
        Option.or]

/-! ## C3 -/

/-- C3 (amended): every push-derived change carries a non-empty branch and
copies repository/project verbatim from the handler's arguments, and its
revision is non-empty whenever the payload's commit ids are; every
PR-derived change's branch is exactly the synthetic merge ref
`refs/pull/<number>/merge` and its revision/repository/project are copied
verbatim from the payload fields. -/
theorem C3_identity_and_branch :
    (∀ (rs : String → String → Bool) (dp : String → Option Nat) (h : GitHubEventHandler)
       (payload : Payload) (repo_url project event : String) (props : Props)
       (changes : List Change),
      process_change rs dp h payload repo_url project event props = .ok changes →
      (∀ k : Commit, (k ∈ payload.commits.getD [] ∨ payload.head_commit = some k) →
        ¬ k.id = some "") →
      ∀ c ∈ changes, c.branch ≠ "" ∧ c.revision ≠ "" ∧
        c.repository = repo_url ∧ c.project = project) ∧
    (∀ (rs : String → String → Bool) (dp : String → Option Nat)
       (epr : PullRequestObj → Props) (svc : ApiService) (h : GitHubEventHandler)
       (payload : Payload) (event : String) (changes : List Change) (tag : String),
      handle_pull_request rs dp epr svc h payload event = .ok (changes, tag) →
      ∀ c ∈ changes, ∃ n, payload.number = some n ∧
        c.branch = "refs/pull/" ++ toString n ++ "/merge" ∧ c.category = some "pull" ∧
        (∃ pr hd, payload.pull_request = some pr ∧ pr.head = some hd ∧
          hd.sha = some c.revision) ∧
        (∃ repo, payload.repository = some repo ∧ repo.html_url = some c.repository) ∧
        (∃ pr b brepo, payload.pull_request = some pr ∧ pr.base = some b ∧
          b.repo = some brepo ∧ brepo.full_name = some c.project)) := by
  constructor
  · intro rs dp h payload repo_url project event props changes hok hids
    unfold process_change at hok
    cases href : payload.ref with
    | none => rw [href] at hok; simp [getK, Bind.bind, Except.bind] at hok
    | some r =>
      rw [href] at hok
      simp only [getK, Bind.bind, Except.bind] at hok
      cases hmr : matchRefHeadsTags r with
      | none =>
        simp only [hmr] at hok
        cases hok
        intro c hc; cases hc
      | some gp =>
        obtain ⟨g1, br⟩ := gp
        simp only [hmr] at hok
        cases hdel : payload.deleted.getD false with
        | true =>
          simp only [hdel, if_true] at hok
          cases hok
          intro c hc; cases hc
        | false =>
          simp only [hdel, Bool.false_eq_true, if_false] at hok
          cases hhc : payload.head_commit with
          | none => rw [hhc] at hok; simp [getK, Bind.bind, Except.bind] at hok
          | some hc0 =>
            rw [hhc] at hok
            simp only [getK, Bind.bind, Except.bind] at hok
            cases hskip : has_skip rs h (hc0.message.getD "") with
            | true =>
              simp only [hskip, if_true] at hok
              cases hok
              intro c hcm; cases hcm
            | false =>
              simp only [hskip, Bool.false_eq_true, if_false] at hok
              cases hcs : payload.commits with
              | none => rw [hcs] at hok; simp [getK, Bind.bind, Except.bind] at hok
              | some cs =>
                rw [hcs] at hok
                simp only [getK, Bind.bind, Except.bind] at hok
                intro c hc
                obtain ⟨k, hk, hfk⟩ := mapMExcept_mem hok c hc
                obtain ⟨hprops, hbranch, hrepo, hproj, hcat, hki, hfiles⟩ :=
                  processCommit_ok hfk
                have hkmem : k ∈ cs ∨ some hc0 = some k := by
                  by_cases hcr : payload.created.getD false = true
                  · rw [if_pos hcr] at hk
                    right
                    have := List.mem_singleton.mp hk
                    rw [this]
                  · rw [if_neg hcr] at hk
                    left
                    exact hk
                refine ⟨?_, ?_, hrepo, hproj⟩
                · rw [hbranch]
                  exact matchRef_branch_nonempty hmr
                · intro he
                  rw [he] at hki
                  have hkmem2 : k ∈ payload.commits.getD [] ∨
                      payload.head_commit = some k := by
                    rw [hcs, hhc]
                    exact hkmem
                  exact hids k hkmem2 hki
  · intro rs dp epr svc h payload event changes tag hok
    unfold handle_pull_request at hok
    cases htr : handle_pull_requestTraced rs dp epr svc h payload event with
    | error e => rw [htr] at hok; simp [Except.map] at hok
    | ok res =>
      rw [htr] at hok
      simp only [Except.map, Except.ok.injEq] at hok
      have hch : res.1.1 = changes := by rw [hok]
      obtain ⟨n, pr, hn, hpr, hdisj⟩ := handle_pr_traced_ok htr
      rcases hdisj with hempty |
        ⟨hd, sha, c, hhd, hsha, hres, hrev, hbrn, hcat, hrepo, hproj, hsvcf⟩
      · intro c0 hc0
        rw [← hch, hempty] at hc0
        cases hc0
      · intro c0 hc0
        rw [← hch, hres] at hc0
        have hc0c : c0 = c := List.mem_singleton.mp hc0
        subst hc0c
        refine ⟨n, hn, hbrn, hcat, ⟨pr, hd, hpr, hhd, ?_⟩, hrepo, ?_⟩
        · rw [hsha, hrev]
        · obtain ⟨b, brepo, hb, hbr, hfn⟩ := hproj
          exact ⟨pr, b, brepo, hpr, hb, hbr, hfn⟩



/-- A complete pull-request sub-object fixture. -/
def prFixObj : PullRequestObj :=
  { commits := some 2, title := some "Title", body := some "Body",
    head := some { sha := some "HS" }, user := some { login := some "alice" },
    base := some { user := some { login := some "owner" },
                   repo := some { name := some "repo", full_name := some "own/repo" } },
    created_at := some "2020", links := some { html_href := some "http://pr" } }

/-- A pull-request payload fixture with action `opened`. -/
def prFixPayload : Payload :=
  { ref := none, deleted := none, created := none, head_commit := none, commits := none,
    repository := some { name := some "repo", html_url := some "http://r",
                         full_name := some "own/repo" },
    number := some 12, action := some "opened", pull_request := some prFixObj }

/-- A handler with an OAuth token, so the enrichment client exists. -/
def tokenHdl : GitHubEventHandler := { plainHdl with token := some "tk" }

/-- A commit-detail entry whose message will match under `allMatchRegex`. -/
def skipDetails : CommitDetails :=
  { message := "msg", author := some "Ann", login := some "alice", title := "T",
    body := none }

/-- Service data mapping the PR head sha `HS` to `skipDetails`. -/
def svcSkip : ApiService :=
  { changed_files := ["f1"], pr_changes := [("HS", skipDetails)] }

/-- C6 witness: the theorem applied to the skip fixture. -/
theorem C6_witness :
    handle_pull_requestTraced allMatchRegex parse0 noPropsPR svcSkip tokenHdl prFixPayload
      "pull_request" =
      .ok (([], "git"), [ApiCall.getChangedFiles, ApiCall.getPullRequestChanges]) :=
  C6_head_skip_aborts allMatchRegex parse0 noPropsPR svcSkip tokenHdl prFixPayload
    "pull_request" 12 prFixObj 2 "Title" "Body" { sha := some "HS" } "HS"
    { login := some "alice" } "alice"
    { user := some { login := some "owner" },
      repo := some { name := some "repo", full_name := some "own/repo" } }
    { login := some "owner" } "owner"
    { name := some "repo", full_name := some "own/repo" } "repo" skipDetails
    rfl rfl rfl rfl rfl rfl rfl (Or.inl rfl) rfl rfl rfl rfl rfl rfl rfl rfl
    (List.Mem.head _) rfl

/-- The changes emitted for `prFixPayload` with no enrichment client. -/
def c7res : List Change :=
  match handle_pull_request noMatchRegex parse0 noPropsPR emptySvc plainHdl prFixPayload
      "pull_request" with
  | .ok (cs, _) => cs
  | .error _ => []

/-- The first change emitted for `prFixPayload` with no enrichment client. -/
def c7head : Change := c7res.headD dummyChange

/-- C7 witness: the theorem applied to the unenriched PR fixture,
instantiated at the emitted change. -/
theorem C7_witness : c7head.files = none ∧ c7head.properties.lookup "owners" = none :=
  C7_no_enrichment_no_files_no_owners noMatchRegex parse0 noPropsPR emptySvc plainHdl
    prFixPayload "pull_request" c7res "git" rfl rfl (fun _ _ => rfl) c7head
    (List.Mem.head _)

/-- A commit whose id is the empty string. -/
def emptyIdCommit : Commit := { fixCommit with id := some "" }

/-- A push payload whose only commit has an empty id. -/
def c3payload : Payload :=
  { fixPushPayload with
    head_commit := some emptyIdCommit
    commits := some [emptyIdCommit] }

/-- The changes the push handler emits for `c3payload`. -/
def c3res : List Change :=
  match handle_push noMatchRegex parse0 noPropsPush plainHdl c3payload "push" with
  | .ok (cs, _) => cs
  | .error _ => []

/-- C3 counterexample: the push normalizer emits a record whose revision
is the empty string when the payload's commit id is empty, so the claimed
unconditional non-emptiness invariant is false on the code. -/
theorem C3_counterexample :
    handle_push noMatchRegex parse0 noPropsPush plainHdl c3payload "push" =
      .ok (c3res, "git") ∧
    c3res.map Change.revision = [""] := ⟨rfl, rfl⟩

/-- C3 witness: the amended theorem applied to the non-empty-id push
fixture and to the PR fixture. -/
theorem C3_witness :
    (∀ c ∈ c4res, c.branch ≠ "" ∧ c.revision ≠ "" ∧
      c.repository = "http://r" ∧ c.project = "own/repo") ∧
    (∀ c ∈ c7res, ∃ n, prFixPayload.number = some n ∧
      c.branch = "refs/pull/" ++ toString n ++ "/merge" ∧ c.category = some "pull" ∧
      (∃ pr hd, prFixPayload.pull_request = some pr ∧ pr.head = some hd ∧
        hd.sha = some c.revision) ∧
      (∃ repo, prFixPayload.repository = some repo ∧ repo.html_url = some c.repository) ∧
      (∃ pr b brepo, prFixPayload.pull_request = some pr ∧ pr.base = some b ∧
        b.repo = some brepo ∧ brepo.full_name = some c.project)) :=
  ⟨C3_identity_and_branch.1 noMatchRegex parse0 plainHdl fixPushPayload "http://r"
      "own/repo" "push" fixProps c4res rfl
      (by
        intro k hk
        rcases hk with hk | hk
        · have hkf : k = fixCommit := by simpa [fixPushPayload] using hk
          subst hkf
          decide
        · have hkf : fixCommit = k := by simpa [fixPushPayload] using hk
          subst hkf
          decide),
   C3_identity_and_branch.2 noMatchRegex parse0 noPropsPR emptySvc plainHdl prFixPayload
     "pull_request" c7res "git" rfl⟩

/-! ## C8 -/

/-- C8: a push whose ref matches neither `refs/heads/...` nor
`refs/tags/...`, or whose payload marks the ref deleted, or whose head
commit's message matches a skip pattern, makes `_process_change` return an
empty change list successfully — none of the three cases raises. -/
theorem C8_empty_success (rs : String → String → Bool) (dp : String → Option Nat)
    (h : GitHubEventHandler) (payload : Payload)
    (repo_url project event : String) (props : Props) (r : String)
    (href : payload.ref = some r)
    (hcase : matchRefHeadsTags r = none ∨ payload.deleted.getD false = true ∨
      ∃ hc, payload.head_commit = some hc ∧ has_skip rs h (hc.message.getD "") = true) :
    process_change rs dp h payload repo_url project event props = .ok [] := by
  unfold process_change
  rcases hcase with hm | hd | ⟨hc, hhc, hskip⟩
  · simp [href, getK, Bind.bind, Except.bind, hm]
  · cases hmr : matchRefHeadsTags r with
    | none => simp [href, getK, Bind.bind, Except.bind, hmr]
    | some pr =>
      obtain ⟨g1, br⟩ := pr
      simp [href, getK, Bind.bind, Except.bind, hmr, hd]
  · cases hmr : matchRefHeadsTags r with
    | none => simp [href, getK, Bind.bind, Except.bind, hmr]
    | some pr =>
      obtain ⟨g1, br⟩ := pr
      cases hdel : payload.deleted.getD false with
      | true => simp [href, getK, Bind.bind, Except.bind, hmr, hdel]
      | false => simp [href, getK, Bind.bind, Except.bind, hmr, hdel, hhc, hskip]

/-- C8 witness: a payload whose ref is `refs/remotes/origin/main` (neither
a branch nor a tag) yields the empty change list. -/
theorem C8_witness :
    process_change noMatchRegex parse0 plainHdl
      { emptyPayload with ref := some "refs/remotes/origin/main" }
      "url" "proj" "push" [] = .ok [] :=
  C8_empty_success noMatchRegex parse0 plainHdl
    { emptyPayload with ref := some "refs/remotes/origin/main" }
    "url" "proj" "push" [] "refs/remotes/origin/main" rfl (Or.inl (by decide))

/-! ## C9 -/

/-- C9: an event-type header naming no registered handler makes `process`
fail — it never returns a change list, and when payload extraction
succeeds the failure is precisely the unknown-event `ValueError`; a
`ping` event with a successfully extracted payload yields zero changes. -/
theorem C9_unknown_event_fails_ping_succeeds (rs : String → String → Bool)
    (dp : String → Option Nat) (jl : String → Option Payload)
    (eps : Payload → Props) (epr : PullRequestObj → Props)
    (svc : ApiService) (h : GitHubEventHandler) :
    (∀ (req : Request) (et : Option String), req.getHeader HEADER_EVENT = et →
      et ≠ some "ping" → et ≠ some "push" → et ≠ some "pull_request" →
      (∀ res, process rs dp jl eps epr svc h req ≠ .ok res) ∧
      (∀ p, get_payload jl h req = .ok p →
        process rs dp jl eps epr svc h req =
          .error (.valueError ("Unknown event: " ++ pyFormatOpt et)))) ∧
    (∀ (req : Request) (p : Payload), req.getHeader HEADER_EVENT = some "ping" →
      get_payload jl h req = .ok p →
      process rs dp jl eps epr svc h req = .ok ([], "git")) := by
  constructor
  · intro req et het h1 h2 h3
    cases hp : get_payload jl h req with
    | error e =>
      constructor
      · intro res hcontra
        unfold process at hcontra
        simp [hp, Bind.bind, Except.bind] at hcontra
      · intro p hpp
        simp [hp] at hpp
    | ok p =>
      have hproc : process rs dp jl eps epr svc h req =
          .error (.valueError ("Unknown event: " ++ pyFormatOpt et)) := by
        unfold process
        simp only [hp, het, Bind.bind, Except.bind]
      refine ⟨fun res hcontra => ?_, fun _ _ => hproc⟩
      rw [hproc] at hcontra
      simp at hcontra
  · intro req p hping hp
    unfold process
    simp [hp, hping, Bind.bind, Except.bind, handle_ping]

/-- A JSON request declaring the unhandled event type `deployment`. -/
def unknownEventReq : Request :=
  { content := "{}",
    headers := [("Content-Type", "application/json"), ("X-GitHub-Event", "deployment")],
    args_payload := none }

/-- A JSON request declaring the `ping` event type. -/
def pingReq : Request :=
  { content := "{}",
    headers := [("Content-Type", "application/json"), ("X-GitHub-Event", "ping")],
    args_payload := none }

/-- C9 witness: a `deployment` event fails with the unknown-event error,
and a `ping` event succeeds with zero changes. -/
theorem C9_witness :
    process noMatchRegex parse0 jsonConst noPropsPush noPropsPR emptySvc plainHdl
      unknownEventReq =
      .error (.valueError ("Unknown event: " ++ pyFormatOpt (some "deployment"))) ∧
    process noMatchRegex parse0 jsonConst noPropsPush noPropsPR emptySvc plainHdl pingReq =
      .ok ([], "git") :=
  ⟨((C9_unknown_event_fails_ping_succeeds noMatchRegex parse0 jsonConst noPropsPush noPropsPR
      emptySvc plainHdl).1 unknownEventReq (some "deployment") rfl (by decide) (by decide)
      (by decide)).2 emptyPayload rfl,
   (C9_unknown_event_fails_ping_succeeds noMatchRegex parse0 jsonConst noPropsPush noPropsPR
      emptySvc plainHdl).2 pingReq emptyPayload rfl rfl⟩

end GitHubHook
